import Mathlib

/-!
Verification of the effective-DPI analyzer and image transformer of the
rust-resample-pdf repository (src/src/lib.rs), as a shallow embedding.

Modelling conventions:
* `f32` values are modelled by `F := Option ℚ`: `some q` is an ordinary
  (finite) float, `none` models NaN.  Arithmetic propagates NaN; ordering
  comparisons are false when either side is NaN, mirroring IEEE-754
  semantics.  Overflow to infinity is not modelled.
* `f32::sqrt` is modelled by a rational approximation built from an
  integer square root (NaN on negative inputs).  No theorem below depends
  on the numeric value of the square root, only on the recorded pair
  itself.
* Machine integers: `u32` values are `ℕ`; the Rust `as u32` cast from
  `i64` wraps modulo 2^32 (`u32cast`), while the `as u32` cast from `f32`
  saturates (`castU32`), as in Rust semantics.
* zlib inflation is external; it is passed in as a parameter
  `inflate : List ℕ → Option (List ℕ)` (`none` = decode error).
* `HashMap`/`HashSet` are modelled as association lists / lists with
  insert-or-replace and membership; iteration order of per-image
  observation vectors (the order that matters for the reducer) follows
  push order exactly as in the source.
* Rust string parsing of float literals (`token.parse::<f32>()`) is
  modelled on the sign/decimal fragment of the grammar; exponent and
  inf/nan spellings are treated as parse failures.
-/

attribute [local semireducible] Rat.add Rat.mul Rat.sub Rat.inv

namespace PdfResample

/-! ## Float model -/

/-- Model of `f32`: `some q` is a finite value, `none` is NaN. -/
abbrev F : Type := Option ℚ

/-- Embed a rational as a (non-NaN) float. -/
def fv (q : ℚ) : F := some q

/-- Float addition; NaN propagates. -/
def fadd : F → F → F
  | some a, some b => some (a + b)
  | _, _ => none

/-- Float multiplication; NaN propagates. -/
def fmul : F → F → F
  | some a, some b => some (a * b)
  | _, _ => none

/-- Float division; NaN propagates.  Division by zero (which in `f32`
yields an infinity or NaN, neither representable here) is modelled as
NaN; every use in the source is guarded so that the divisor is a
strictly positive finite value. -/
def fdiv : F → F → F
  | some a, some b => if b = 0 then none else some (a / b)
  | _, _ => none

/-- Float strict less-than; false when either operand is NaN
(IEEE-754 comparison semantics, as in Rust `<` / `>` on `f32`). -/
def flt : F → F → Bool
  | some a, some b => decide (a < b)
  | _, _ => false

/-- Rust `f32::max`: if one argument is NaN the other is returned. -/
def fmax : F → F → F
  | none, b => b
  | a, none => a
  | some a, some b => some (max a b)

/-- Integer square root (largest `k` with `k * k ≤ n`), written so that
the kernel can evaluate it on concrete inputs. -/
def natSqrt (n : ℕ) : ℕ :=
  ((List.range (n + 1)).filter (fun k => k * k ≤ n)).foldl max 0

/-- Rational square-root approximation (componentwise integer square
root, as in `Rat.sqrt`). -/
def ratSqrt (q : ℚ) : ℚ := mkRat (natSqrt q.num.toNat) (natSqrt q.den)

/-- Model of `f32::sqrt`: NaN on negative inputs, the rational
approximation otherwise.  The numeric value of the approximation is
irrelevant to every theorem below; only the identity of the recorded
pair matters. -/
def fsqrt : F → F
  | none => none
  | some q => if q < 0 then none else some (ratSqrt q)

/-- Total comparison on rationals (used to model `partial_cmp` on
non-NaN floats). -/
def qcmp (a b : ℚ) : Ordering :=
  if a < b then .lt else if b < a then .gt else .eq

/-- Model of `f32::partial_cmp`: `none` exactly when either side is NaN. -/
def fpartialCmp : F → F → Option Ordering
  | some a, some b => some (qcmp a b)
  | _, _ => none

/-- Rust `f32::round`: round half away from zero (result stays a float). -/
def froundAway (q : ℚ) : ℤ :=
  if 0 ≤ q then ⌊q + 1 / 2⌋ else -⌊-q + 1 / 2⌋

/-- Rounding lifted to the float model; NaN propagates. -/
def fround : F → F
  | none => none
  | some q => some ((froundAway q : ℤ) : ℚ)

/-- Rust `as u32` cast from a float: saturating; NaN ↦ 0. -/
def castU32 : F → ℕ
  | none => 0
  | some q => if q < 0 then 0 else min ⌊q⌋.toNat 4294967295

/-- Rust `as u32` cast from `i64`: truncation to the low 32 bits. -/
def u32cast (n : ℤ) : ℕ := (n % 4294967296).toNat

/-! ## PDF object model -/

/-- Indirect object identifier `(number, generation)`. -/
abbrev ObjectId : Type := ℕ × ℕ

/-- The lopdf object variants used by the analyzer.  Stream payloads are
byte lists; stream/real values carry the float model where the source
carries `f32`. -/
inductive Obj : Type where
  | null : Obj
  | boolean : Bool → Obj
  | integer : ℤ → Obj
  | real : F → Obj
  | name : String → Obj
  | str : String → Obj
  | array : List Obj → Obj
  | dictionary : List (String × Obj) → Obj
  | stream : List (String × Obj) → List ℕ → Obj
  | ref : ObjectId → Obj

/-- A PDF dictionary: ordered key/value pairs with unique keys. -/
abbrev Dict : Type := List (String × Obj)

/-- First-match association-list lookup. -/
def lookupAssoc {κ β : Type} [DecidableEq κ] (l : List (κ × β)) (k : κ) :
    Option β :=
  (l.find? (fun p => decide (p.1 = k))).map (·.2)

/-- Insert-or-replace into an association list (HashMap insert). -/
def insertAssoc {κ β : Type} [DecidableEq κ] :
    List (κ × β) → κ → β → List (κ × β)
  | [], k, v => [(k, v)]
  | (k', v') :: rest, k, v =>
    if k' = k then (k', v) :: rest else (k', v') :: insertAssoc rest k v

/-- Dictionary lookup (`Dictionary::get`). -/
def dictGet (d : Dict) (k : String) : Option Obj := lookupAssoc d k

/-- The loaded object graph. -/
structure Document : Type where
  objects : List (ObjectId × Obj)

/-- Resolve an `ObjectId` (`Document::get_object`). -/
def Document.getObject (doc : Document) (id : ObjectId) : Option Obj :=
  lookupAssoc doc.objects id

/-- Resolve a possibly-indirect object (`ContentScanner::resolve`). -/
def resolve (doc : Document) : Obj → Option Obj
  | .ref id => doc.getObject id
  | o => some o

/-! ## Matrix -/

/-- 2-D transformation matrix `[a, b, c, d, e, f]` over the float model. -/
structure Matrix : Type where
  a : F
  b : F
  c : F
  d : F
  e : F
  f : F
deriving DecidableEq

/-- The identity matrix. -/
def Matrix.identity : Matrix :=
  ⟨fv 1, fv 0, fv 0, fv 1, fv 0, fv 0⟩

/-- Concatenate another matrix: `self * other` (`Matrix::concat`). -/
def Matrix.concat (m other : Matrix) : Matrix where
  a := fadd (fmul m.a other.a) (fmul m.b other.c)
  b := fadd (fmul m.a other.b) (fmul m.b other.d)
  c := fadd (fmul m.c other.a) (fmul m.d other.c)
  d := fadd (fmul m.c other.b) (fmul m.d other.d)
  e := fadd (fadd (fmul m.e other.a) (fmul m.f other.c)) other.e
  f := fadd (fadd (fmul m.e other.b) (fmul m.f other.d)) other.f

/-- Horizontal scale factor `sqrt (a² + b²)` (`Matrix::scale_x`). -/
def Matrix.scale_x (m : Matrix) : F :=
  fsqrt (fadd (fmul m.a m.a) (fmul m.b m.b))

/-- Vertical scale factor `sqrt (c² + d²)` (`Matrix::scale_y`). -/
def Matrix.scale_y (m : Matrix) : F :=
  fsqrt (fadd (fmul m.c m.c) (fmul m.d m.d))

/-! ## Filter layer (`decompress_stream`) -/

/-- Extract the filter-name chain from a stream dictionary, as in the
source: a single `Name` gives a one-element chain, an `Array` keeps its
`Name` members, anything else (including a missing entry) gives none. -/
def extractFilters (d : Dict) : Option (List String) :=
  match dictGet d "Filter" with
  | some (.name n) => some [n]
  | some (.array arr) =>
    some (arr.filterMap (fun o => match o with | .name n => some n | _ => none))
  | _ => none

/-- The filter-application loop of `decompress_stream`: `FlateDecode`
inflates (a decode error yields the stream's original bytes), any other
filter name stops the loop and returns the bytes produced so far. -/
def decompressLoop (inflate : List ℕ → Option (List ℕ)) (orig : List ℕ) :
    List String → List ℕ → List ℕ
  | [], data => data
  | fn :: rest, data =>
    if fn = "FlateDecode" then
      match inflate data with
      | some decoded => decompressLoop inflate orig rest decoded
      | none => orig
    else data

/-- Decompress a stream's content (`decompress_stream`). -/
def decompressStream (inflate : List ℕ → Option (List ℕ)) (d : Dict)
    (content : List ℕ) : List ℕ :=
  match extractFilters d with
  | some fs => decompressLoop inflate content fs content
  | none => content

/-! ## Content-stream tokenizer -/

/-- Whitespace set of the tokenizer: space, tab, LF, CR. -/
def isWs (ch : Char) : Bool :=
  ch = ' ' || ch = '\t' || ch = '\n' || ch = '\r'

/-- The character loop of the tokenizer in `scan_content_stream`
(lines 495–537): literal strings are consumed with a parenthesis depth
counter, whitespace flushes the current token, brackets are single-char
tokens. -/
def tokenizeGo : List Char → Bool → ℕ → String → List String → List String
  | [], _, _, cur, acc => if cur.isEmpty then acc else acc ++ [cur]
  | ch :: rest, true, depth, cur, acc =>
    let cur' := cur.push ch
    if ch = '(' then tokenizeGo rest true (depth + 1) cur' acc
    else if ch = ')' then
      if depth - 1 = 0 then tokenizeGo rest false 0 "" (acc ++ [cur'])
      else tokenizeGo rest true (depth - 1) cur' acc
    else tokenizeGo rest true depth cur' acc
  | ch :: rest, false, depth, cur, acc =>
    if ch = '(' then
      let acc' := if cur.isEmpty then acc else acc ++ [cur]
      tokenizeGo rest true 1 (String.push "" '(') acc'
    else if isWs ch then
      let acc' := if cur.isEmpty then acc else acc ++ [cur]
      tokenizeGo rest false depth "" acc'
    else if ch = '[' || ch = ']' then
      let acc' := if cur.isEmpty then acc else acc ++ [cur]
      tokenizeGo rest false depth "" (acc' ++ [String.push "" ch])
    else tokenizeGo rest false depth (cur.push ch) acc

/-- Tokenize a content stream, viewed as characters. -/
def tokenize (cs : List Char) : List String := tokenizeGo cs false 0 "" []

/-- View of a decompressed byte as a character
(`String::from_utf8_lossy`, restricted to the byte-at-a-time view; the
tokenizer only gives ASCII characters special meaning). -/
def charOfByte (b : ℕ) : Char := Char.ofNat b

/-- Numeric value of a digit string. -/
def digitsVal (cs : List Char) : ℕ :=
  cs.foldl (fun a c => 10 * a + (c.toNat - 48)) 0

/-- Parse an unsigned decimal literal (`digits`, `digits.digits`,
`digits.`, `.digits`). -/
def parseUnsigned (cs : List Char) : Option ℚ :=
  let intPart := cs.takeWhile Char.isDigit
  let rest := cs.dropWhile Char.isDigit
  match rest with
  | [] => if intPart.isEmpty then none else some (digitsVal intPart : ℚ)
  | '.' :: frac =>
    if frac.all Char.isDigit && !(intPart.isEmpty && frac.isEmpty) then
      some ((digitsVal intPart : ℚ) + (digitsVal frac : ℚ) / (10 ^ frac.length : ℚ))
    else none
  | _ => none

/-- Model of `parse_number` (`token.parse::<f32>().ok()`), on the
sign/decimal fragment of the float grammar. -/
def parseNumber (s : String) : Option F :=
  match s.data with
  | '-' :: rest => (parseUnsigned rest).map (fun q => fv (-q))
  | '+' :: rest => (parseUnsigned rest).map fv
  | cs => (parseUnsigned cs).map fv

/-- Remove every leading `/` (`trim_start_matches('/')`). -/
def trimSlashes (s : String) : String :=
  ⟨s.data.dropWhile (fun c => c = '/')⟩

/-! ## Resource helpers -/

/-- Build the XObject name → ObjectId map from a resources object
(`get_xobjects_from_resources`). -/
def getXObjectsFromResources (doc : Document) (resources : Obj) :
    List (String × ObjectId) :=
  match resolve doc resources with
  | some (.dictionary rd) =>
    match dictGet rd "XObject" with
    | some xo =>
      match resolve doc xo with
      | some (.dictionary xd) =>
        xd.foldl (fun acc p =>
          match p.2 with
          | .ref id => insertAssoc acc p.1 id
          | _ => acc) []
      | _ => []
    | none => []
  | _ => []

/-- Build the ExtGState name → ObjectId map from a resources object
(`get_extgstates_from_resources`). -/
def getExtGStatesFromResources (doc : Document) (resources : Obj) :
    List (String × ObjectId) :=
  match resolve doc resources with
  | some (.dictionary rd) =>
    match dictGet rd "ExtGState" with
    | some gs =>
      match resolve doc gs with
      | some (.dictionary gd) =>
        gd.foldl (fun acc p =>
          match p.2 with
          | .ref id => insertAssoc acc p.1 id
          | _ => acc) []
      | _ => []
    | none => []
  | _ => []

/-- Get the SMask Form XObject id from an ExtGState object
(`get_smask_form_from_extgstate`). -/
def getSMaskFormFromExtGState (doc : Document) (gsId : ObjectId) :
    Option ObjectId :=
  match doc.getObject gsId with
  | some (.dictionary gd) =>
    match dictGet gd "SMask" with
    | some (.dictionary sm) =>
      match dictGet sm "G" with
      | some (.ref formId) => some formId
      | _ => none
    | some (.ref rid) =>
      match doc.getObject rid with
      | some (.dictionary sm) =>
        match dictGet sm "G" with
        | some (.ref formId) => some formId
        | _ => none
      | _ => none
    | _ => none
  | _ => none

/-- Collect tiling-pattern (`PatternType = 1`) stream ids from the
`Pattern` dictionary of a resources object
(`get_pattern_forms_from_resources`). -/
def getPatternFormsFromResources (doc : Document) (resources : Obj) :
    List ObjectId :=
  match resolve doc resources with
  | some (.dictionary rd) =>
    match dictGet rd "Pattern" with
    | some pats =>
      match resolve doc pats with
      | some (.dictionary pd) =>
        pd.foldl (fun acc p =>
          match p.2 with
          | .ref patId =>
            match doc.getObject patId with
            | some (.stream sd _) =>
              match dictGet sd "PatternType" with
              | some (.integer n) => if n = 1 then acc ++ [patId] else acc
              | _ => acc
            | _ => acc
          | _ => acc) []
      | _ => []
    | none => []
  | _ => []

/-- Numeric extraction used by `parse_matrix_from_dict`. -/
def getNum : Obj → Option F
  | .integer n => some (fv (n : ℚ))
  | .real q => some q
  | _ => none

/-- Parse a `/Matrix` entry, defaulting to the identity
(`parse_matrix_from_dict`). -/
def parseMatrixFromDict (d : Dict) : Matrix :=
  match dictGet d "Matrix" with
  | some (.array arr) =>
    if 6 ≤ arr.length then
      match (arr.get? 0).bind getNum, (arr.get? 1).bind getNum,
            (arr.get? 2).bind getNum, (arr.get? 3).bind getNum,
            (arr.get? 4).bind getNum, (arr.get? 5).bind getNum with
      | some a, some b, some c, some d', some e, some f =>
        ⟨a, b, c, d', e, f⟩
      | _, _, _, _, _, _ => Matrix.identity
    else Matrix.identity
  | _ => Matrix.identity

/-- Extract a `Subtype` name from a stream dictionary. -/
def subtypeOf (d : Dict) : Option String :=
  match dictGet d "Subtype" with
  | some (.name n) => some n
  | _ => none

/-! ## Analyzer state and interpreter -/

/-- Mutable state of `ContentScanner` during a scan: the per-image
observation lists (push order preserved), the visited-subgraph set, and
a flag recording whether the fuel of the model ever ran out (the Rust
code has no such flag; it is `false` whenever the fuel is sufficient,
see `scanGo_fuel_sufficient`). -/
structure ScanState : Type where
  displayInfo : List (ObjectId × List (F × F))
  scannedForms : List ObjectId
  fuelOut : Bool
deriving DecidableEq

/-- Append one observation to an image's observation list
(`display_info.entry(obj_id).or_default().push(..)`). -/
def pushObs : List (ObjectId × List (F × F)) → ObjectId → (F × F) →
    List (ObjectId × List (F × F))
  | [], id, o => [(id, [o])]
  | (j, l) :: rest, id, o =>
    if j = id then (j, l ++ [o]) :: rest else (j, l) :: pushObs rest id o

/-- Stack effect of one token (`q`, `Q`, `cm` arms of the operator
match in `scan_content_stream`; all other operators leave the stack
unchanged).  The stack top is the list head. -/
def stackUpdate (tokens : Array String) (i : ℕ) (stack : List Matrix) :
    List Matrix :=
  match tokens.getD i "" with
  | "q" =>
    match stack with
    | [] => []
    | m :: rest => m :: m :: rest
  | "Q" =>
    if 1 < stack.length then stack.tail else stack
  | "cm" =>
    if 6 ≤ i then
      match parseNumber (tokens.getD (i - 6) ""), parseNumber (tokens.getD (i - 5) ""),
            parseNumber (tokens.getD (i - 4) ""), parseNumber (tokens.getD (i - 3) ""),
            parseNumber (tokens.getD (i - 2) ""), parseNumber (tokens.getD (i - 1) "") with
      | some a, some b, some c, some d, some e, some f =>
        match stack with
        | [] => []
        | m :: rest => m.concat ⟨a, b, c, d, e, f⟩ :: rest
      | _, _, _, _, _, _ => stack
    else stack
  | _ => stack

/-- State effect of one token (`gs` and `Do` arms of the operator match
in `scan_content_stream`).  `subScan` performs the recursion into a Form
XObject (`scan_form_xobject`). -/
def recordStep (doc : Document)
    (subScan : ObjectId → Matrix → ScanState → ScanState)
    (tokens : Array String) (xobjects gss : List (String × ObjectId))
    (i : ℕ) (stack : List Matrix) (st : ScanState) : ScanState :=
  match tokens.getD i "" with
  | "gs" =>
    if 1 ≤ i then
      match lookupAssoc gss (trimSlashes (tokens.getD (i - 1) "")) with
      | some gsId =>
        let current := stack.headD Matrix.identity
        match getSMaskFormFromExtGState doc gsId with
        | some formId => subScan formId current st
        | none => st
      | none => st
    else st
  | "Do" =>
    if 1 ≤ i then
      match lookupAssoc xobjects (trimSlashes (tokens.getD (i - 1) "")) with
      | some objId =>
        let current := stack.headD Matrix.identity
        match doc.getObject objId with
        | some (.stream d _) =>
          match subtypeOf d with
          | some "Image" =>
            let displayW := current.scale_x
            let displayH := current.scale_y
            if flt (fv 0) displayW && flt (fv 0) displayH then
              { st with displayInfo := pushObs st.displayInfo objId (displayW, displayH) }
            else st
          | some "Form" => subScan objId current st
          | _ => st
        | _ => st
      | none => st
    else st
  | _ => st

/-- One iteration of the token loop: the state effect is computed from
the current stack, then the stack is updated. -/
def tokenStep (doc : Document)
    (subScan : ObjectId → Matrix → ScanState → ScanState)
    (tokens : Array String) (xobjects gss : List (String × ObjectId))
    (p : List Matrix × ScanState) (i : ℕ) : List Matrix × ScanState :=
  (stackUpdate tokens i p.1,
   recordStep doc subScan tokens xobjects gss i p.1 p.2)

/-- Run the token loop of `scan_content_stream` over all indices. -/
def runTokens (doc : Document)
    (subScan : ObjectId → Matrix → ScanState → ScanState)
    (tokens : Array String) (xobjects gss : List (String × ObjectId))
    (stack : List Matrix) (st : ScanState) : ScanState :=
  ((List.range tokens.size).foldl
    (tokenStep doc subScan tokens xobjects gss) (stack, st)).2

/-- Work items of the interpreter: scan a subgraph
(`scan_form_xobject` / `scan_tiling_pattern`, whose bodies are
identical in the source) or scan a content stream
(`scan_content_stream`). -/
inductive ScanTask : Type where
  | sub : ObjectId → Matrix → ScanTask
  | content : List ℕ → Obj → Matrix → ScanTask

/-- The graphics-state interpreter.  Fuel bounds the recursion depth
(the source recursion terminates because `scanned_forms` only grows;
`scanGo_fuel_sufficient` below shows `2·|unvisited| + 1` fuel always
suffices, so the flag `fuelOut` is an artifact of the embedding). -/
def scanGo (doc : Document) (inflate : List ℕ → Option (List ℕ)) :
    ℕ → ScanTask → ScanState → ScanState
  | fuel, .sub id parentM, st =>
    if id ∈ st.scannedForms then st
    else
      let st1 := { st with scannedForms := id :: st.scannedForms }
      match doc.getObject id with
      | some (.stream d content) =>
        (match fuel with
         | 0 => { st1 with fuelOut := true }
         | f + 1 =>
           let combined := parentM.concat (parseMatrixFromDict d)
           let resources := (dictGet d "Resources").getD .null
           scanGo doc inflate f
             (.content (decompressStream inflate d content) resources combined) st1)
      | _ => st1
  | fuel, .content content resources initialM, st =>
    match fuel with
    | 0 => { st with fuelOut := true }
    | f + 1 =>
      let xobjects := getXObjectsFromResources doc resources
      let gss := getExtGStatesFromResources doc resources
      let patternForms := getPatternFormsFromResources doc resources
      let st1 := patternForms.foldl
        (fun s patId => scanGo doc inflate f (.sub patId initialM) s) st
      let tokens := (tokenize (content.map charOfByte)).toArray
      runTokens doc (fun id m s => scanGo doc inflate f (.sub id m) s)
        tokens xobjects gss [initialM] st1

/-- Scan a Form XObject's content stream (`scan_form_xobject`). -/
def scanFormXObject (doc : Document) (inflate : List ℕ → Option (List ℕ))
    (fuel : ℕ) (st : ScanState) (formId : ObjectId) (parentM : Matrix) :
    ScanState :=
  scanGo doc inflate fuel (.sub formId parentM) st

/-- Scan a tiling pattern's content stream (`scan_tiling_pattern`; its
body is identical to `scan_form_xobject`, sharing `scanned_forms`). -/
def scanTilingPattern (doc : Document) (inflate : List ℕ → Option (List ℕ))
    (fuel : ℕ) (st : ScanState) (patId : ObjectId) (parentM : Matrix) :
    ScanState :=
  scanGo doc inflate fuel (.sub patId parentM) st

/-- Parse and scan a content stream (`scan_content_stream`). -/
def scanContentStream (doc : Document) (inflate : List ℕ → Option (List ℕ))
    (fuel : ℕ) (st : ScanState) (content : List ℕ) (resources : Obj)
    (initialM : Matrix) : ScanState :=
  scanGo doc inflate fuel (.content content resources initialM) st

/-! ## Image index (`cache_image_dimensions`) -/

/-- Width/Height extraction as in the source: only an `Integer` entry
counts, it is cast with `as u32` (wrapping), and anything else defaults
to 0. -/
def dimEntry (d : Dict) (key : String) : ℕ :=
  match dictGet d key with
  | some (.integer n) => u32cast n
  | _ => 0

/-- One iteration of the object loop of `cache_image_dimensions`. -/
def cacheStep (acc : List (ObjectId × (ℕ × ℕ))) (p : ObjectId × Obj) :
    List (ObjectId × (ℕ × ℕ)) :=
  match p.2 with
  | .stream d _ =>
    if subtypeOf d = some "Image" then
      let width := dimEntry d "Width"
      let height := dimEntry d "Height"
      if 0 < width ∧ 0 < height then insertAssoc acc p.1 (width, height)
      else acc
    else acc
  | _ => acc

/-- Cache the pixel dimensions of every stream with `Subtype = Image`
whose extracted width and height are both nonzero
(`cache_image_dimensions`). -/
def cacheImageDimensions (doc : Document) : List (ObjectId × (ℕ × ℕ)) :=
  doc.objects.foldl cacheStep []

/-! ## Display info and the reducer (`get_display_info_map`) -/

/-- Final aggregation per image (`ImageDisplayInfo`). -/
structure ImageDisplayInfo : Type where
  pixel_width : ℕ
  pixel_height : ℕ
  display_width_points : F
  display_height_points : F
deriving DecidableEq

/-- Effective horizontal DPI (`ImageDisplayInfo::effective_dpi_x`). -/
def ImageDisplayInfo.effective_dpi_x (i : ImageDisplayInfo) : F :=
  let displayInches := fdiv i.display_width_points (fv 72)
  if flt (fv 0) displayInches then fdiv (fv i.pixel_width) displayInches
  else fv 0

/-- Effective vertical DPI (`ImageDisplayInfo::effective_dpi_y`). -/
def ImageDisplayInfo.effective_dpi_y (i : ImageDisplayInfo) : F :=
  let displayInches := fdiv i.display_height_points (fv 72)
  if flt (fv 0) displayInches then fdiv (fv i.pixel_height) displayInches
  else fv 0

/-- Maximum effective DPI (`ImageDisplayInfo::max_effective_dpi`). -/
def ImageDisplayInfo.max_effective_dpi (i : ImageDisplayInfo) : F :=
  fmax i.effective_dpi_x i.effective_dpi_y

/-- Target pixel dimensions for a given DPI
(`ImageDisplayInfo::target_pixels_for_dpi`). -/
def ImageDisplayInfo.target_pixels_for_dpi (i : ImageDisplayInfo)
    (targetDpi : F) : ℕ × ℕ :=
  let displayWidthInches := fdiv i.display_width_points (fv 72)
  let displayHeightInches := fdiv i.display_height_points (fv 72)
  let targetWidth := castU32 (fround (fmul displayWidthInches targetDpi))
  let targetHeight := castU32 (fround (fmul displayHeightInches targetDpi))
  (max targetWidth 1, max targetHeight 1)

/-- The area comparator closure of `get_display_info_map`:
`(w1*h1).partial_cmp(&(w2*h2))`. -/
def fpcArea (x y : F × F) : Option Ordering :=
  fpartialCmp (fmul x.1 x.2) (fmul y.1 y.2)

/-- One step of `Iterator::max_by` (`cmp::max_by`): the accumulator is
kept only when the new element compares strictly less; the Boolean
records whether the `unwrap` of a `partial_cmp` result would have
panicked (`none` comparison). -/
def maxByStep {α : Type} (cmp : α → α → Option Ordering)
    (acc : α × Bool) (y : α) : α × Bool :=
  match cmp y acc.1 with
  | some .lt => acc
  | some _ => (y, acc.2)
  | none => (y, true)

/-- Rust `Iterator::max_by` (which returns the last maximal element),
instrumented with the panic flag of the comparator's `unwrap`. -/
def reduceMaxBy {α : Type} (cmp : α → α → Option Ordering) :
    List α → Option (α × Bool)
  | [] => none
  | x :: xs => some (xs.foldl (maxByStep cmp) (x, false))

/-- One iteration of the entry loop of `get_display_info_map`. -/
def displayMapStep (imageDims : List (ObjectId × (ℕ × ℕ)))
    (acc : List (ObjectId × ImageDisplayInfo) × Bool)
    (p : ObjectId × List (F × F)) :
    List (ObjectId × ImageDisplayInfo) × Bool :=
  match lookupAssoc imageDims p.1 with
  | some dims =>
    let chosenPan :=
      match reduceMaxBy fpcArea p.2 with
      | some cp => cp
      | none => ((fv dims.1, fv dims.2), false)
    (insertAssoc acc.1 p.1
      ⟨dims.1, dims.2, chosenPan.1.1, chosenPan.1.2⟩,
     acc.2 || chosenPan.2)
  | none => acc

/-- Build the final ObjectId → ImageDisplayInfo map
(`get_display_info_map`); the Boolean is true when the source's
`partial_cmp(..).unwrap()` would have panicked. -/
def getDisplayInfoMap (imageDims : List (ObjectId × (ℕ × ℕ)))
    (st : ScanState) : List (ObjectId × ImageDisplayInfo) × Bool :=
  st.displayInfo.foldl (displayMapStep imageDims) ([], false)

/-! ## Image transformer (`process_images_in_doc`) -/

/-- Resampling options (`ResampleOptions`). -/
structure ResampleOptions : Type where
  target_dpi : F
  quality : ℕ
  min_dpi : F
  compress_streams : Bool
  verbose : Bool

/-- Result counters (`ResampleResult`). -/
structure ResampleResult : Type where
  total_images : ℕ
  resampled_images : ℕ
  skipped_images : ℕ
deriving DecidableEq

/-- Outcomes of the external image codec for one image; these model the
`image`/`jpeg_encoder` crates, which are outside the analyzed source:
whether `decode_image_stream` fails, whether `has_alpha` holds on the
(possibly resampled) image, and whether the chosen encoder fails. -/
structure CodecOracle : Type where
  decodeErr : Option String
  hasAlpha : Bool
  encodeErr : Option String

/-- Outcome of processing one image: skipped, replaced in place (with
`resized` recording whether `resample_image` ran), or a propagated
encoder error that aborts the whole pass. -/
inductive ImgOutcome : Type where
  | skipped : ImgOutcome
  | replaced : Bool → ImgOutcome
  | failed : String → ImgOutcome
deriving DecidableEq

/-- First filter name of a stream dictionary, as read by
`process_images_in_doc` (a `Name`, or the first element of an `Array`
when that element is a `Name`). -/
def firstFilterName (d : Dict) : Option String :=
  match dictGet d "Filter" with
  | some (.name n) => some n
  | some (.array arr) =>
    match arr.head? with
    | some (.name n) => some n
    | _ => none
  | _ => none

/-- The per-image body of the loop of `process_images_in_doc`
(lines 1296–1507), with the external codec steps supplied by `oracle`. -/
def processOneImage (displayLookup : Option ImageDisplayInfo) (d : Dict)
    (oracle : CodecOracle) (opts : ResampleOptions) : ImgOutcome :=
  let width := dimEntry d "Width"
  let height := dimEntry d "Height"
  if width = 0 ∨ height = 0 then .skipped
  else
    let isAlreadyJpeg := firstFilterName d = some "DCTDecode"
    let displayInfo := displayLookup.getD
      ⟨width, height, fv width, fv height⟩
    let currentDpi := displayInfo.max_effective_dpi
    let needsResampling :=
      flt (fadd opts.target_dpi (fv 1)) currentDpi && flt opts.min_dpi currentDpi
    let targetDims :=
      if needsResampling then displayInfo.target_pixels_for_dpi opts.target_dpi
      else (width, height)
    if !needsResampling && isAlreadyJpeg then .skipped
    else if needsResampling && decide (width ≤ targetDims.1) && decide (height ≤ targetDims.2) then
      .skipped
    else
      match oracle.decodeErr with
      | some _ => .skipped
      | none =>
        match oracle.encodeErr with
        | some e => .failed e
        | none => .replaced needsResampling

/-- The counting loop of `process_images_in_doc`: every image bumps
`total_images` and then exactly one of the other counters, unless an
encoder error aborts the pass. -/
def processImagesGo (opts : ResampleOptions) :
    List (Option ImageDisplayInfo × Dict × CodecOracle) →
    ℕ → ℕ → ℕ → Except String ResampleResult
  | [], t, r, s => .ok ⟨t, r, s⟩
  | c :: rest, t, r, s =>
    match processOneImage c.1 c.2.1 c.2.2 opts with
    | .skipped => processImagesGo opts rest (t + 1) r (s + 1)
    | .replaced _ => processImagesGo opts rest (t + 1) (r + 1) s
    | .failed e => .error e

/-- Process the collected image XObjects (`process_images_in_doc`). -/
def processImages (opts : ResampleOptions)
    (cases : List (Option ImageDisplayInfo × Dict × CodecOracle)) :
    Except String ResampleResult :=
  processImagesGo opts cases 0 0 0

/-! ## Association-list lemmas -/

theorem lookupAssoc_cons {κ β : Type} [DecidableEq κ] (k' : κ) (v' : β)
    (l : List (κ × β)) (k : κ) :
    lookupAssoc ((k', v') :: l) k =
      if k' = k then some v' else lookupAssoc l k := by
  by_cases h : k' = k <;> simp [lookupAssoc, List.find?, h]

theorem lookupAssoc_mem_keys {κ β : Type} [DecidableEq κ]
    {l : List (κ × β)} {k : κ} {v : β}
    (h : lookupAssoc l k = some v) : k ∈ l.map Prod.fst := by
  induction l with
  | nil => simp [lookupAssoc] at h
  | cons p rest ih =>
    rw [show p = (p.1, p.2) from rfl, lookupAssoc_cons] at h
    by_cases hk : p.1 = k
    · simp [hk]
    · simp [hk] at h
      simp [ih h]

theorem insertAssoc_lookup_self {κ β : Type} [DecidableEq κ]
    (l : List (κ × β)) (k : κ) (v : β) :
    lookupAssoc (insertAssoc l k v) k = some v := by
  induction l with
  | nil => simp [insertAssoc, lookupAssoc, List.find?]
  | cons p rest ih =>
    by_cases h : p.1 = k
    · simp [insertAssoc, h, lookupAssoc_cons]
    · rw [show p = (p.1, p.2) from rfl]
      simp only [insertAssoc, if_neg h]
      rw [lookupAssoc_cons, if_neg h]
      exact ih

theorem insertAssoc_lookup_other {κ β : Type} [DecidableEq κ]
    (l : List (κ × β)) (k k' : κ) (v : β) (h : k' ≠ k) :
    lookupAssoc (insertAssoc l k v) k' = lookupAssoc l k' := by
  induction l with
  | nil => simp [insertAssoc, lookupAssoc, List.find?, Ne.symm h]
  | cons p rest ih =>
    by_cases hp : p.1 = k
    · simp only [insertAssoc, if_pos hp]
      rw [lookupAssoc_cons, lookupAssoc_cons, hp]
      have : ¬ (k = k') := fun hh => h hh.symm
      simp [this]
    · rw [show p = (p.1, p.2) from rfl]
      simp only [insertAssoc, if_neg hp]
      rw [lookupAssoc_cons, lookupAssoc_cons]
      by_cases hk : p.1 = k'
      · simp [hk]
      · simp [hk, ih]

/-! ## Claim C8: the filter layer -/

/-- Claim C8: `decompress_stream` never fails; when the first filter is
`FlateDecode` and inflation errors, the stream's original raw bytes are
returned unchanged; and whenever a filter name other than `FlateDecode`
is reached in the chain, the loop stops and returns the bytes produced
so far. -/
theorem claim_C8 (inflate : List ℕ → Option (List ℕ)) (d : Dict)
    (content : List ℕ) :
    (∀ rest, extractFilters d = some ("FlateDecode" :: rest) →
      inflate content = none →
      decompressStream inflate d content = content) ∧
    (∀ orig data g fs, g ≠ "FlateDecode" →
      decompressLoop inflate orig (g :: fs) data = data) := by
  constructor
  · intro rest hf hi
    simp [decompressStream, hf, decompressLoop, hi]
  · intro orig data g fs hg
    simp [decompressLoop, hg]

/-- Witness for claim C8 at a concrete stream and inflater. -/
theorem claim_C8_witness :
    decompressStream (fun _ => none)
      [("Filter", Obj.name "FlateDecode")] [1, 2, 3] = [1, 2, 3] ∧
    decompressLoop (fun _ => none) [9] ["DCTDecode"] [1, 2] = [1, 2] := by
  refine ⟨(claim_C8 (fun _ => none) [("Filter", Obj.name "FlateDecode")]
    [1, 2, 3]).1 [] (by decide) rfl, ?_⟩
  exact (claim_C8 (fun _ => none) [] []).2 [9] [1, 2] "DCTDecode" []
    (by decide)

/-! ## Claim C9: counter arithmetic of the transformer pass -/

theorem processImagesGo_ok (opts : ResampleOptions) :
    ∀ (l : List (Option ImageDisplayInfo × Dict × CodecOracle))
      (t r s : ℕ) (res : ResampleResult),
      processImagesGo opts l t r s = .ok res → t = r + s →
      res.total_images = res.resampled_images + res.skipped_images := by
  intro l
  induction l with
  | nil =>
    intro t r s res h ht
    simp [processImagesGo] at h
    rw [← h]
    simpa using ht
  | cons c rest ih =>
    intro t r s res h ht
    rw [processImagesGo] at h
    rcases ho : processOneImage c.1 c.2.1 c.2.2 opts with _ | b | e <;>
      rw [ho] at h
    · exact ih (t + 1) r (s + 1) res h (by omega)
    · exact ih (t + 1) (r + 1) s res h (by omega)
    · simp at h

/-- Claim C9: whenever the transformer pass returns successfully, its
counters satisfy `total_images = resampled_images + skipped_images`. -/
theorem claim_C9 (opts : ResampleOptions)
    (cases' : List (Option ImageDisplayInfo × Dict × CodecOracle))
    (res : ResampleResult) (h : processImages opts cases' = .ok res) :
    res.total_images = res.resampled_images + res.skipped_images :=
  processImagesGo_ok opts cases' 0 0 0 res h rfl

/-- Witness for claim C9: a pass over one skipped and one resampled
image. -/
theorem claim_C9_witness :
    processImages ⟨fv 150, 75, fv 0, true, false⟩
      [(none, [("Width", Obj.integer 4), ("Height", Obj.integer 4)],
        ⟨none, false, none⟩)] = .ok ⟨1, 1, 0⟩ ∧
    (⟨1, 1, 0⟩ : ResampleResult).total_images =
      (⟨1, 1, 0⟩ : ResampleResult).resampled_images +
      (⟨1, 1, 0⟩ : ResampleResult).skipped_images := by
  constructor
  · rfl
  · exact claim_C9 ⟨fv 150, 75, fv 0, true, false⟩
      [(none, [("Width", Obj.integer 4), ("Height", Obj.integer 4)],
        ⟨none, false, none⟩)] ⟨1, 1, 0⟩ rfl

/-! ## Claim C7: the image index -/

theorem cacheStep_lookup_untouched (id : ObjectId)
    (acc : List (ObjectId × (ℕ × ℕ))) (p : ObjectId × Obj)
    (h : p.1 ≠ id) :
    lookupAssoc (cacheStep acc p) id = lookupAssoc acc id := by
  unfold cacheStep
  split
  · split
    · dsimp only
      split
      · exact insertAssoc_lookup_other _ _ _ _ (Ne.symm h)
      · rfl
    · rfl
  · rfl

theorem cacheFold_lookup_untouched (id : ObjectId) :
    ∀ (l : List (ObjectId × Obj)) (acc : List (ObjectId × (ℕ × ℕ))),
      id ∉ l.map Prod.fst →
      lookupAssoc (l.foldl cacheStep acc) id = lookupAssoc acc id := by
  intro l
  induction l with
  | nil => intro acc _; rfl
  | cons p rest ih =>
    intro acc hid
    simp only [List.map_cons, List.mem_cons] at hid
    push_neg at hid
    rw [List.foldl_cons, ih _ hid.2]
    exact cacheStep_lookup_untouched id acc p (hid.1 ∘ Eq.symm)

/-- Whether one object qualifies for the dimension cache, and with what
value. -/
def cacheEntry (o : Obj) : Option (ℕ × ℕ) :=
  match o with
  | .stream d _ =>
    if subtypeOf d = some "Image" then
      if 0 < dimEntry d "Width" ∧ 0 < dimEntry d "Height" then
        some (dimEntry d "Width", dimEntry d "Height")
      else none
    else none
  | _ => none

theorem cacheStep_lookup_self (id : ObjectId)
    (acc : List (ObjectId × (ℕ × ℕ))) (o : Obj)
    (hacc : lookupAssoc acc id = none) :
    lookupAssoc (cacheStep acc (id, o)) id =
      match cacheEntry o with
      | some v => some v
      | none => none := by
  unfold cacheStep cacheEntry
  cases o <;> simp only [] <;> try exact hacc
  split
  · split
    · simp [insertAssoc_lookup_self]
    · simpa using hacc
  · simpa using hacc

theorem cache_lookup_of_mem (doc : Document) (id : ObjectId) (o : Obj)
    (hnd : (doc.objects.map Prod.fst).Nodup)
    (hmem : (id, o) ∈ doc.objects) :
    lookupAssoc (cacheImageDimensions doc) id = cacheEntry o := by
  unfold cacheImageDimensions
  obtain ⟨l₁, l₂, hsplit⟩ := List.append_of_mem hmem
  rw [hsplit]
  rw [hsplit, List.map_append, List.map_cons] at hnd
  have hnotl₁ : id ∉ l₁.map Prod.fst := by
    intro hin
    have hdisj := (List.nodup_append.mp hnd).2.2
    exact hdisj hin (by simp)
  have hnotl₂ : id ∉ l₂.map Prod.fst := by
    have h2 := (List.nodup_append.mp hnd).2.1
    simpa using (List.nodup_cons.mp h2).1
  rw [List.foldl_append, List.foldl_cons]
  rw [cacheFold_lookup_untouched id l₂ _ hnotl₂]
  rw [cacheStep_lookup_self id _ o]
  · cases cacheEntry o <;> rfl
  · rw [cacheFold_lookup_untouched id l₁ [] hnotl₁]
    rfl

/-- Concrete document for the C7 counterexample: one image stream whose
`Width` entry is the integer `-5`. -/
def doc7 : Document :=
  ⟨[((1, 0), .stream
      [("Subtype", .name "Image"), ("Width", .integer (-5)),
       ("Height", .integer 10)] [])]⟩

/-- Counterexample to claim C7 as stated: a stream whose `Width` is the
negative integer `-5` is not skipped — the wrapping `as u32` cast turns
it into `2^32 - 5`, which passes the positivity test, so an entry keyed
by its ObjectId does appear in the dimensions map. -/
theorem claim_C7_counterexample :
    lookupAssoc (cacheImageDimensions doc7) (1, 0) =
      some (4294967291, 10) ∧
    lookupAssoc (cacheImageDimensions doc7) (1, 0) ≠ none := by
  constructor
  · decide
  · decide

/-- Claim C7 (amended): the image index caches pixel dimensions exactly
for stream objects with `Subtype = Image` whose `Width` and `Height`
entries are both present and integer and whose values, truncated to
their low 32 bits by the `as u32` cast, are both nonzero; the cached
value is the truncated pair.  Streams with missing or non-integer
entries are skipped, but a negative or overlarge integer is cached with
its wrapped 32-bit value rather than skipped. -/
theorem claim_C7 (doc : Document) (id : ObjectId) (d : Dict)
    (c : List ℕ) (hnd : (doc.objects.map Prod.fst).Nodup)
    (hmem : (id, Obj.stream d c) ∈ doc.objects) :
    lookupAssoc (cacheImageDimensions doc) id =
      (if subtypeOf d = some "Image" then
        (if 0 < dimEntry d "Width" ∧ 0 < dimEntry d "Height" then
          some (dimEntry d "Width", dimEntry d "Height")
        else none)
      else none) := by
  rw [cache_lookup_of_mem doc id (Obj.stream d c) hnd hmem]
  rfl

/-- Witness for claim C7 at a concrete document: an ordinary 7×9 image
is cached as such. -/
theorem claim_C7_witness :
    ((⟨[((2, 0), Obj.stream
        [("Subtype", Obj.name "Image"), ("Width", Obj.integer 7),
         ("Height", Obj.integer 9)] [])]⟩ : Document).objects.map
            Prod.fst).Nodup ∧
    lookupAssoc (cacheImageDimensions
      ⟨[((2, 0), Obj.stream
        [("Subtype", Obj.name "Image"), ("Width", Obj.integer 7),
         ("Height", Obj.integer 9)] [])]⟩) (2, 0) = some (7, 9) := by
  refine ⟨by decide, ?_⟩
  rw [claim_C7 _ (2, 0)
    [("Subtype", Obj.name "Image"), ("Width", Obj.integer 7),
     ("Height", Obj.integer 9)] [] (by decide)
    (List.mem_singleton.mpr rfl)]
  decide

/-! ## Claim C3: when resampling happens -/

/-- The display info actually used for an image: the reduced map entry,
or the 1 pixel = 1 point fallback built in `process_images_in_doc`. -/
def usedDisplayInfo (dlk : Option ImageDisplayInfo) (d : Dict) :
    ImageDisplayInfo :=
  dlk.getD ⟨dimEntry d "Width", dimEntry d "Height",
    fv (dimEntry d "Width"), fv (dimEntry d "Height")⟩

/-- The `needs_resampling` condition of `process_images_in_doc`. -/
def needsFlag (info : ImageDisplayInfo) (opts : ResampleOptions) : Bool :=
  flt (fadd opts.target_dpi (fv 1)) info.max_effective_dpi &&
    flt opts.min_dpi info.max_effective_dpi

/-- Claim C3: for every image processed by the transformer, the resize
step runs only when `current_dpi > target_dpi + 1.0` and
`current_dpi > min_dpi` both hold for the image's maximum effective DPI
(first conjunct), and even when that condition holds an image whose
computed target dimensions are at least its pixel dimensions is skipped
rather than resampled (second conjunct). -/
theorem claim_C3 (dlk : Option ImageDisplayInfo) (d : Dict)
    (oracle : CodecOracle) (opts : ResampleOptions) :
    (processOneImage dlk d oracle opts = .replaced true →
      needsFlag (usedDisplayInfo dlk d) opts = true) ∧
    (needsFlag (usedDisplayInfo dlk d) opts = true →
      dimEntry d "Width" ≤
        ((usedDisplayInfo dlk d).target_pixels_for_dpi opts.target_dpi).1 →
      dimEntry d "Height" ≤
        ((usedDisplayInfo dlk d).target_pixels_for_dpi opts.target_dpi).2 →
      processOneImage dlk d oracle opts = .skipped) := by
  constructor
  · by_cases hn : needsFlag (usedDisplayInfo dlk d) opts = true
    · exact fun _ => hn
    · intro h
      exfalso
      have hn' : (flt (fadd opts.target_dpi (fv 1))
          (dlk.getD ⟨dimEntry d "Width", dimEntry d "Height",
            fv (dimEntry d "Width"), fv (dimEntry d "Height")⟩).max_effective_dpi &&
          flt opts.min_dpi
          (dlk.getD ⟨dimEntry d "Width", dimEntry d "Height",
            fv (dimEntry d "Width"), fv (dimEntry d "Height")⟩).max_effective_dpi)
          = false := by
        exact Bool.not_eq_true _ ▸ hn
      unfold processOneImage at h
      split at h
      · exact absurd h (by simp)
      · dsimp only at h
        rw [hn'] at h
        simp only [Bool.not_false, Bool.true_and, Bool.false_and,
          Bool.false_eq_true, if_false] at h
        split at h
        · exact absurd h (by simp)
        · split at h
          · exact absurd h (by simp)
          · split at h
            · exact absurd h (by simp)
            · exact absurd h (by simp)
  · intro hneeds hw hh
    have hn : (flt (fadd opts.target_dpi (fv 1))
        (dlk.getD ⟨dimEntry d "Width", dimEntry d "Height",
          fv (dimEntry d "Width"), fv (dimEntry d "Height")⟩).max_effective_dpi &&
        flt opts.min_dpi
        (dlk.getD ⟨dimEntry d "Width", dimEntry d "Height",
          fv (dimEntry d "Width"), fv (dimEntry d "Height")⟩).max_effective_dpi)
        = true := hneeds
    have hw' : dimEntry d "Width" ≤
        ((dlk.getD ⟨dimEntry d "Width", dimEntry d "Height",
          fv (dimEntry d "Width"), fv (dimEntry d "Height")⟩).target_pixels_for_dpi
            opts.target_dpi).1 := hw
    have hh' : dimEntry d "Height" ≤
        ((dlk.getD ⟨dimEntry d "Width", dimEntry d "Height",
          fv (dimEntry d "Width"), fv (dimEntry d "Height")⟩).target_pixels_for_dpi
            opts.target_dpi).2 := hh
    unfold processOneImage
    dsimp only
    by_cases hz : dimEntry d "Width" = 0 ∨ dimEntry d "Height" = 0
    · rw [if_pos hz]
    · rw [if_neg hz, hn]
      simp [hw', hh']

/-- Witness for claim C3: a resampled image for the first conjunct; a
tiny image displayed at 0.72 pt (200 DPI, target 150) whose rounded
target dimensions are not smaller, hence skipped, for the second. -/
theorem claim_C3_witness :
    (processOneImage none
        [("Width", Obj.integer 100), ("Height", Obj.integer 100)]
        ⟨none, false, none⟩ ⟨fv 30, 75, fv 0, true, false⟩ =
          .replaced true ∧
      needsFlag (usedDisplayInfo none
        [("Width", Obj.integer 100), ("Height", Obj.integer 100)])
        ⟨fv 30, 75, fv 0, true, false⟩ = true) ∧
    processOneImage
        (some ⟨2, 2, fv (18 / 25), fv (18 / 25)⟩)
        [("Width", Obj.integer 2), ("Height", Obj.integer 2)]
        ⟨none, false, none⟩ ⟨fv 150, 75, fv 0, true, false⟩ =
          .skipped := by
  constructor
  · refine ⟨by decide, ?_⟩
    exact (claim_C3 none
      [("Width", Obj.integer 100), ("Height", Obj.integer 100)]
      ⟨none, false, none⟩ ⟨fv 30, 75, fv 0, true, false⟩).1 (by decide)
  · exact (claim_C3 (some ⟨2, 2, fv (18 / 25), fv (18 / 25)⟩)
      [("Width", Obj.integer 2), ("Height", Obj.integer 2)]
      ⟨none, false, none⟩ ⟨fv 150, 75, fv 0, true, false⟩).2
      (by decide) (by decide) (by decide)

/-! ## Claim C1: observation recording at a `Do` of an Image XObject -/

theorem pushObs_lookup_self (di : List (ObjectId × List (F × F)))
    (id : ObjectId) (o : F × F) :
    lookupAssoc (pushObs di id o) id =
      some ((lookupAssoc di id).getD [] ++ [o]) := by
  induction di with
  | nil => simp [pushObs, lookupAssoc, List.find?]
  | cons p rest ih =>
    obtain ⟨j, l⟩ := p
    by_cases h : j = id
    · subst h
      simp [pushObs, lookupAssoc_cons]
    · simp only [pushObs, if_neg h]
      rw [lookupAssoc_cons, lookupAssoc_cons, if_neg h, if_neg h]
      exact ih

theorem pushObs_lookup_other (di : List (ObjectId × List (F × F)))
    (id id' : ObjectId) (o : F × F) (h : id' ≠ id) :
    lookupAssoc (pushObs di id o) id' = lookupAssoc di id' := by
  induction di with
  | nil => simp [pushObs, lookupAssoc, List.find?, Ne.symm h]
  | cons p rest ih =>
    obtain ⟨j, l⟩ := p
    by_cases hj : j = id
    · subst hj
      rw [show pushObs ((j, l) :: rest) j o = (j, l ++ [o]) :: rest by
        simp [pushObs]]
      rw [lookupAssoc_cons, lookupAssoc_cons, if_neg (fun hh => h hh.symm),
        if_neg (fun hh => h hh.symm)]
    · simp only [pushObs, if_neg hj]
      rw [lookupAssoc_cons, lookupAssoc_cons]
      by_cases hj' : j = id'
      · simp [hj']
      · simp [hj', ih]

/-- Claim C1: when the interpreter executes a `Do` operator whose
operand resolves to an Image XObject, it appends exactly one display
observation, equal to `(scale_x, scale_y) = (√(a²+b²), √(c²+d²))` of
the top-of-stack CTM, to that image's observation list, and it does so
if and only if both values are strictly positive; no other state
changes, and other images' observation lists are untouched. -/
theorem claim_C1 (doc : Document)
    (subScan : ObjectId → Matrix → ScanState → ScanState)
    (tokens : Array String) (xobjects gss : List (String × ObjectId))
    (i : ℕ) (mtop : Matrix) (mrest : List Matrix) (st : ScanState)
    (objId : ObjectId) (d : Dict) (c : List ℕ)
    (htok : tokens.getD i "" = "Do") (hi : 1 ≤ i)
    (hname : lookupAssoc xobjects
      (trimSlashes (tokens.getD (i - 1) "")) = some objId)
    (hobj : doc.getObject objId = some (.stream d c))
    (hsub : subtypeOf d = some "Image") :
    ((flt (fv 0) mtop.scale_x && flt (fv 0) mtop.scale_y) = true →
      recordStep doc subScan tokens xobjects gss i (mtop :: mrest) st =
        { st with displayInfo :=
            pushObs st.displayInfo objId (mtop.scale_x, mtop.scale_y) }) ∧
    ((flt (fv 0) mtop.scale_x && flt (fv 0) mtop.scale_y) = false →
      recordStep doc subScan tokens xobjects gss i (mtop :: mrest) st = st) ∧
    (∀ di id o, lookupAssoc (pushObs di id o) id =
        some ((lookupAssoc di id).getD [] ++ [o]) ∧
      ∀ id', id' ≠ id →
        lookupAssoc (pushObs di id o) id' = lookupAssoc di id') := by
  refine ⟨?_, ?_, fun di id o =>
    ⟨pushObs_lookup_self di id o, fun id' h => pushObs_lookup_other di id id' o h⟩⟩
  all_goals
    have hname' : lookupAssoc xobjects
        (trimSlashes ((tokens[i - 1]?).getD "")) = some objId := by
      simpa using hname
  · intro hpos
    unfold recordStep
    rw [htok]
    simp [hi, hpos, hname', hobj, hsub]
  · intro hneg
    unfold recordStep
    rw [htok]
    simp [hi, hneg, hname', hobj, hsub]

/-- Witness for claim C1: a concrete `Do` of a 2×-scaled image records
the observation (2, 2), and a degenerate zero-scale CTM records
nothing. -/
theorem claim_C1_witness :
    (recordStep ⟨[((3, 0), .stream [("Subtype", Obj.name "Image")] [])]⟩
        (fun _ _ s => s) #["/Im1", "Do"] [("Im1", (3, 0))] [] 1
        [⟨fv 2, fv 0, fv 0, fv 2, fv 0, fv 0⟩] ⟨[], [], false⟩ =
      ⟨[((3, 0), [(fv 2, fv 2)])], [], false⟩) ∧
    (recordStep ⟨[((3, 0), .stream [("Subtype", Obj.name "Image")] [])]⟩
        (fun _ _ s => s) #["/Im1", "Do"] [("Im1", (3, 0))] [] 1
        [⟨fv 0, fv 0, fv 0, fv 2, fv 0, fv 0⟩] ⟨[], [], false⟩ =
      ⟨[], [], false⟩) := by
  constructor
  · have h := (claim_C1 ⟨[((3, 0), .stream [("Subtype", Obj.name "Image")] [])]⟩
      (fun _ _ s => s) #["/Im1", "Do"] [("Im1", (3, 0))] [] 1
      ⟨fv 2, fv 0, fv 0, fv 2, fv 0, fv 0⟩ [] ⟨[], [], false⟩ (3, 0)
      [("Subtype", Obj.name "Image")] [] (by decide) (by decide) (by decide)
      rfl (by decide)).1 (by decide)
    rw [h]
    decide
  · exact (claim_C1 ⟨[((3, 0), .stream [("Subtype", Obj.name "Image")] [])]⟩
      (fun _ _ s => s) #["/Im1", "Do"] [("Im1", (3, 0))] [] 1
      ⟨fv 0, fv 0, fv 0, fv 2, fv 0, fv 0⟩ [] ⟨[], [], false⟩ (3, 0)
      [("Subtype", Obj.name "Image")] [] (by decide) (by decide) (by decide)
      rfl (by decide)).2.1 (by decide)

/-! ## Claim C4: the CTM stack invariant -/

theorem stackUpdate_length (tokens : Array String) (i : ℕ)
    (stack : List Matrix) (h : 1 ≤ stack.length) :
    1 ≤ (stackUpdate tokens i stack).length := by
  unfold stackUpdate
  split
  · match stack, h with
    | m :: rest, _ => simp
  · split
    · rename_i hlen
      simp only [List.length_tail]
      omega
    · exact h
  · split
    · split
      · match stack, h with
        | m :: rest, _ => simp
      · exact h
    · exact h
  · exact h

/-- Claim C4: throughout the interpretation of any content stream the
CTM stack keeps length at least 1 (first conjunct: the token loop,
started from any nonempty stack, keeps it nonempty at every prefix of
indices); `q` duplicates the top; a `Q` with exactly one element on the
stack leaves it unchanged; and `scan_content_stream` enters the token
loop with the one-element stack `[initial_matrix]`. -/
theorem claim_C4 :
    (∀ (doc : Document)
       (subScan : ObjectId → Matrix → ScanState → ScanState)
       (tokens : Array String) (xo gs : List (String × ObjectId))
       (idxs : List ℕ) (stack : List Matrix) (st : ScanState),
       1 ≤ stack.length →
       1 ≤ ((idxs.foldl (tokenStep doc subScan tokens xo gs)
          (stack, st)).1).length) ∧
    (∀ (tokens : Array String) (i : ℕ) (m : Matrix) (rest : List Matrix),
       tokens.getD i "" = "q" →
       stackUpdate tokens i (m :: rest) = m :: m :: rest) ∧
    (∀ (tokens : Array String) (i : ℕ) (m : Matrix),
       tokens.getD i "" = "Q" → stackUpdate tokens i [m] = [m]) ∧
    (∀ (doc : Document) (inflate : List ℕ → Option (List ℕ)) (f : ℕ)
       (c : List ℕ) (r : Obj) (m : Matrix) (st : ScanState),
       scanContentStream doc inflate (f + 1) st c r m =
         runTokens doc (fun id mm s => scanGo doc inflate f (.sub id mm) s)
           (tokenize (c.map charOfByte)).toArray
           (getXObjectsFromResources doc r) (getExtGStatesFromResources doc r)
           [m]
           ((getPatternFormsFromResources doc r).foldl
             (fun s patId => scanGo doc inflate f (.sub patId m) s) st)) := by
  refine ⟨?_, ?_, ?_, ?_⟩
  · intro doc subScan tokens xo gs idxs
    induction idxs with
    | nil => intro stack st h; simpa using h
    | cons i rest ih =>
      intro stack st h
      rw [List.foldl_cons]
      exact ih _ _ (stackUpdate_length tokens i stack h)
  · intro tokens i m rest h
    unfold stackUpdate
    rw [h]
    rfl
  · intro tokens i m h
    unfold stackUpdate
    rw [h]
    rfl
  · intro doc inflate f c r m st
    rfl

/-- Witness for claim C4 at concrete inputs. -/
theorem claim_C4_witness :
    (1 ≤ (([0, 1, 2].foldl
      (tokenStep ⟨[]⟩ (fun _ _ s => s) #["q", "Q", "Q"] [] [])
      ([Matrix.identity], ⟨[], [], false⟩)).1).length) ∧
    stackUpdate #["q"] 0 [Matrix.identity] =
      [Matrix.identity, Matrix.identity] ∧
    stackUpdate #["Q"] 0 [Matrix.identity] = [Matrix.identity] := by
  refine ⟨claim_C4.1 ⟨[]⟩ (fun _ _ s => s) #["q", "Q", "Q"] [] [] [0, 1, 2]
    [Matrix.identity] ⟨[], [], false⟩ (by decide), ?_, ?_⟩
  · exact claim_C4.2.1 #["q"] 0 Matrix.identity [] (by decide)
  · exact claim_C4.2.2.1 #["Q"] 0 Matrix.identity (by decide)

/-! ## Claim C2: the reducer's choice -/

theorem qcmp_lt {a b : ℚ} (h : a < b) : qcmp a b = .lt := by
  simp [qcmp, h]

theorem foldl_maxByStep_suffix (am : ℚ) (m : F × F) (pan : Bool)
    (hm : fmul m.1 m.2 = some am) :
    ∀ l₂ : List (F × F),
      (∀ y ∈ l₂, ∃ ay, fmul y.1 y.2 = some ay ∧ ay < am) →
      l₂.foldl (maxByStep fpcArea) (m, pan) = (m, pan) := by
  intro l₂
  induction l₂ with
  | nil => intro _; rfl
  | cons y rest ih =>
    intro h
    obtain ⟨ay, hay, hlt⟩ := h y (by simp)
    rw [List.foldl_cons,
      show maxByStep fpcArea (m, pan) y = (m, pan) by
        simp [maxByStep, fpcArea, hay, hm, fpartialCmp, qcmp_lt hlt]]
    exact ih (fun z hz => h z (by simp [hz]))

theorem foldl_maxByStep_prefix (am : ℚ) :
    ∀ (l₁ : List (F × F)) (acc : F × F) (pan : Bool) (aacc : ℚ),
      fmul acc.1 acc.2 = some aacc → aacc ≤ am →
      (∀ x ∈ l₁, ∃ ax, fmul x.1 x.2 = some ax ∧ ax ≤ am) →
      ∃ acc' aacc', l₁.foldl (maxByStep fpcArea) (acc, pan) = (acc', pan) ∧
        fmul acc'.1 acc'.2 = some aacc' ∧ aacc' ≤ am := by
  intro l₁
  induction l₁ with
  | nil =>
    intro acc pan aacc hacc hle _
    exact ⟨acc, aacc, rfl, hacc, hle⟩
  | cons x rest ih =>
    intro acc pan aacc hacc hle h
    obtain ⟨ax, hax, haxle⟩ := h x (by simp)
    rw [List.foldl_cons]
    have hrest : ∀ z ∈ rest, ∃ az, fmul z.1 z.2 = some az ∧ az ≤ am :=
      fun z hz => h z (by simp [hz])
    rcases hq : qcmp ax aacc with _ | _ | _
    · rw [show maxByStep fpcArea (acc, pan) x = (acc, pan) by
        simp [maxByStep, fpcArea, hax, hacc, fpartialCmp, hq]]
      exact ih acc pan aacc hacc hle hrest
    · rw [show maxByStep fpcArea (acc, pan) x = (x, pan) by
        simp [maxByStep, fpcArea, hax, hacc, fpartialCmp, hq]]
      exact ih x pan ax hax haxle hrest
    · rw [show maxByStep fpcArea (acc, pan) x = (x, pan) by
        simp [maxByStep, fpcArea, hax, hacc, fpartialCmp, hq]]
      exact ih x pan ax hax haxle hrest

theorem reduceMaxBy_last_max (l₁ l₂ : List (F × F)) (m : F × F) (am : ℚ)
    (hm : fmul m.1 m.2 = some am)
    (h₁ : ∀ x ∈ l₁, ∃ ax, fmul x.1 x.2 = some ax ∧ ax ≤ am)
    (h₂ : ∀ y ∈ l₂, ∃ ay, fmul y.1 y.2 = some ay ∧ ay < am) :
    reduceMaxBy fpcArea (l₁ ++ m :: l₂) = some (m, false) := by
  cases l₁ with
  | nil =>
    rw [List.nil_append, reduceMaxBy]
    rw [foldl_maxByStep_suffix am m false hm l₂ h₂]
  | cons x₀ rest =>
    rw [List.cons_append, reduceMaxBy, List.foldl_append]
    obtain ⟨ax₀, hax₀, hle₀⟩ := h₁ x₀ (by simp)
    obtain ⟨acc', aacc', heq, hacc', hle'⟩ :=
      foldl_maxByStep_prefix am rest x₀ false ax₀ hax₀ hle₀
        (fun z hz => h₁ z (by simp [hz]))
    rw [heq, List.foldl_cons]
    have hstep : maxByStep fpcArea (acc', false) m = (m, false) := by
      have hnlt : ¬ am < aacc' := not_lt.mpr hle'
      rcases hq : qcmp am aacc' with _ | _ | _
      · exfalso
        unfold qcmp at hq
        rw [if_neg hnlt] at hq
        split at hq <;> simp at hq
      · simp [maxByStep, fpcArea, hm, hacc', fpartialCmp, hq]
      · simp [maxByStep, fpcArea, hm, hacc', fpartialCmp, hq]
    rw [hstep]
    rw [foldl_maxByStep_suffix am m false hm l₂ h₂]

theorem displayMapStep_lookup_untouched
    (dims : List (ObjectId × (ℕ × ℕ))) (id : ObjectId)
    (acc : List (ObjectId × ImageDisplayInfo) × Bool)
    (p : ObjectId × List (F × F)) (h : p.1 ≠ id) :
    lookupAssoc (displayMapStep dims acc p).1 id = lookupAssoc acc.1 id := by
  unfold displayMapStep
  split
  · exact insertAssoc_lookup_other _ _ _ _ (Ne.symm h)
  · rfl

theorem displayMapFold_lookup_untouched
    (dims : List (ObjectId × (ℕ × ℕ))) (id : ObjectId) :
    ∀ (entries : List (ObjectId × List (F × F)))
      (acc : List (ObjectId × ImageDisplayInfo) × Bool),
      id ∉ entries.map Prod.fst →
      lookupAssoc ((entries.foldl (displayMapStep dims) acc).1) id =
        lookupAssoc acc.1 id := by
  intro entries
  induction entries with
  | nil => intro acc _; rfl
  | cons p rest ih =>
    intro acc hid
    simp only [List.map_cons, List.mem_cons] at hid
    push_neg at hid
    rw [List.foldl_cons, ih _ hid.2]
    exact displayMapStep_lookup_untouched dims id acc p (hid.1 ∘ Eq.symm)

/-- Claim C2 (amended): for every image ObjectId with at least one
recorded observation and a cached pixel size, the reducer chooses the
observation with maximum `display_width * display_height`, and when two
observations have equal area the one encountered last in scan order is
chosen (Rust `Iterator::max_by` returns the last maximal element, not
the first). -/
theorem claim_C2 (dims : List (ObjectId × (ℕ × ℕ))) (st : ScanState)
    (id : ObjectId) (pw ph : ℕ) (l₁ l₂ : List (F × F)) (m : F × F)
    (am : ℚ) (hnd : (st.displayInfo.map Prod.fst).Nodup)
    (hmem : (id, l₁ ++ m :: l₂) ∈ st.displayInfo)
    (hd : lookupAssoc dims id = some (pw, ph))
    (hm : fmul m.1 m.2 = some am)
    (h₁ : ∀ x ∈ l₁, ∃ ax, fmul x.1 x.2 = some ax ∧ ax ≤ am)
    (h₂ : ∀ y ∈ l₂, ∃ ay, fmul y.1 y.2 = some ay ∧ ay < am) :
    lookupAssoc (getDisplayInfoMap dims st).1 id =
      some ⟨pw, ph, m.1, m.2⟩ := by
  unfold getDisplayInfoMap
  obtain ⟨e₁, e₂, hsplit⟩ := List.append_of_mem hmem
  rw [hsplit]
  rw [hsplit, List.map_append, List.map_cons] at hnd
  have hnotl₂ : id ∉ e₂.map Prod.fst := by
    have h2 := (List.nodup_append.mp hnd).2.1
    simpa using (List.nodup_cons.mp h2).1
  rw [List.foldl_append, List.foldl_cons]
  rw [displayMapFold_lookup_untouched dims id e₂ _ hnotl₂]
  unfold displayMapStep
  rw [show lookupAssoc dims (id, l₁ ++ m :: l₂).1 = some (pw, ph) from hd]
  rw [show reduceMaxBy fpcArea (id, l₁ ++ m :: l₂).2 = some (m, false) from
    reduceMaxBy_last_max l₁ l₂ m am hm h₁ h₂]
  exact insertAssoc_lookup_self _ _ _

/-- Counterexample to claim C2 as stated: observations `(1,4)` then
`(2,2)` for the same image have equal area 4; the reducer chooses the
last one, `(2,2)`, not the first one `(1,4)` encountered in scan
order. -/
theorem claim_C2_counterexample :
    (getDisplayInfoMap [((1, 0), (10, 10))]
        ⟨[((1, 0), [(fv 1, fv 4), (fv 2, fv 2)])], [], false⟩).1 =
      [((1, 0), ⟨10, 10, fv 2, fv 2⟩)] ∧
    fmul (fv 1) (fv 4) = fmul (fv 2) (fv 2) ∧
    ((fv 2, fv 2) : F × F) ≠ ((fv 1, fv 4) : F × F) := by
  refine ⟨by decide, by decide, by decide⟩

/-- Witness for claim C2 at a concrete state: among areas 2, 6, 3 the
maximal observation `(2,3)` is chosen. -/
theorem claim_C2_witness :
    lookupAssoc (getDisplayInfoMap [((5, 0), (8, 9))]
        ⟨[((5, 0), [(fv 1, fv 2), (fv 2, fv 3), (fv 1, fv 3)])], [],
          false⟩).1 (5, 0) =
      some ⟨8, 9, fv 2, fv 3⟩ := by
  exact claim_C2 [((5, 0), (8, 9))]
    ⟨[((5, 0), [(fv 1, fv 2), (fv 2, fv 3), (fv 1, fv 3)])], [], false⟩
    (5, 0) 8 9 [(fv 1, fv 2)] [(fv 1, fv 3)] (fv 2, fv 3) 6
    (by decide) (by decide) (by decide) (by decide)
    (by intro x hx; rw [List.mem_singleton] at hx; subst hx
        exact ⟨2, by decide, by norm_num⟩)
    (by intro y hy; rw [List.mem_singleton] at hy; subst hy
        exact ⟨3, by decide, by norm_num⟩)

/-! ## Claim C6: resource resolution inside forms -/

/-- View an ASCII string as content-stream bytes. -/
def strBytes (s : String) : List ℕ := s.data.map Char.toNat

/-- Document for the C6 counterexample: Form XObject `(2,0)` with no
`Resources` entry whose content paints `/Im1`, and image `(3,0)`. -/
def doc6 : Document :=
  ⟨[((2, 0), .stream [("Subtype", .name "Form")] (strBytes "/Im1 Do")),
    ((3, 0), .stream
      [("Subtype", .name "Image"), ("Width", .integer 10),
       ("Height", .integer 10)] [])]⟩

/-- Caller resources for the C6 counterexample, naming both the form
`F1` and the image `Im1`. -/
def res6 : Obj :=
  .dictionary [("XObject",
    .dictionary [("F1", .ref (2, 0)), ("Im1", .ref (3, 0))])]

/-- Counterexample to claim C6 as stated: painting `/F1 Do` on a page
whose resources name both the form and the image records no observation
for the image, because the form has no `Resources` entry and resource
lookup does not fall back to the caller's resources (the same image
painted directly from the page is observed, second conjunct). -/
theorem claim_C6_counterexample :
    (scanContentStream doc6 (fun _ => none) 10 ⟨[], [], false⟩
      (strBytes "/F1 Do") res6 Matrix.identity).displayInfo = [] ∧
    (scanContentStream doc6 (fun _ => none) 10 ⟨[], [], false⟩
      (strBytes "/Im1 Do") res6 Matrix.identity).displayInfo ≠ [] := by
  exact ⟨by decide, by decide⟩

/-- Claim C6 (amended): when a Form XObject (or tiling pattern) that is
recursed into has no `Resources` entry of its own, its content is
scanned with `Null` resources — there is no fallback to the caller's
resources, so an image named only in the invoking context's resources
is not observed from inside the form. -/
theorem claim_C6 (doc : Document) (inflate : List ℕ → Option (List ℕ))
    (fuel : ℕ) (st : ScanState) (id : ObjectId) (parentM : Matrix)
    (d : Dict) (content : List ℕ)
    (hnv : id ∉ st.scannedForms)
    (hobj : doc.getObject id = some (.stream d content))
    (hres : dictGet d "Resources" = none) :
    scanFormXObject doc inflate (fuel + 1) st id parentM =
      scanContentStream doc inflate fuel
        { st with scannedForms := id :: st.scannedForms }
        (decompressStream inflate d content) Obj.null
        (parentM.concat (parseMatrixFromDict d)) := by
  unfold scanFormXObject scanContentStream
  rw [scanGo]
  rw [if_neg hnv, hobj]
  simp [hres]

/-- Witness for claim C6 at a concrete form without resources. -/
theorem claim_C6_witness :
    scanFormXObject doc6 (fun _ => none) 10 ⟨[], [], false⟩ (2, 0)
        Matrix.identity =
      scanContentStream doc6 (fun _ => none) 9
        ⟨[], [(2, 0)], false⟩ (strBytes "/Im1 Do") Obj.null
        (Matrix.identity.concat
          (parseMatrixFromDict [("Subtype", Obj.name "Form")])) := by
  have h := claim_C6 doc6 (fun _ => none) 9 ⟨[], [], false⟩ (2, 0)
    Matrix.identity [("Subtype", Obj.name "Form")] (strBytes "/Im1 Do")
    (by decide) rfl rfl
  simpa using h

/-! ## Preservation infrastructure for the scanner -/

/-- A display observation with both components strictly positive (in
particular, neither is NaN). -/
def PosObs (z : F × F) : Prop :=
  flt (fv 0) z.1 = true ∧ flt (fv 0) z.2 = true

/-- Every recorded observation in the state is strictly positive. -/
def PosInv (st : ScanState) : Prop :=
  ∀ p ∈ st.displayInfo, ∀ z ∈ p.2, PosObs z

theorem pushObs_posInv (di : List (ObjectId × List (F × F)))
    (id : ObjectId) (o : F × F)
    (h : ∀ p ∈ di, ∀ z ∈ p.2, PosObs z) (ho : PosObs o) :
    ∀ p ∈ pushObs di id o, ∀ z ∈ p.2, PosObs z := by
  induction di with
  | nil =>
    intro p hp z hz
    simp only [pushObs, List.mem_singleton] at hp
    subst hp
    simp only [List.mem_singleton] at hz
    subst hz
    exact ho
  | cons q rest ih =>
    obtain ⟨j, l⟩ := q
    by_cases hj : j = id
    · subst hj
      intro p hp z hz
      rw [show pushObs ((j, l) :: rest) j o = (j, l ++ [o]) :: rest by
        simp [pushObs]] at hp
      rcases List.mem_cons.mp hp with h' | h'
      · subst h'
        rcases List.mem_append.mp hz with h'' | h''
        · exact h (j, l) (by simp) z h''
        · rw [List.mem_singleton.mp h'']
          exact ho
      · exact h p (by simp [h']) z hz
    · intro p hp z hz
      rw [show pushObs ((j, l) :: rest) id o = (j, l) :: pushObs rest id o by
        simp [pushObs, hj]] at hp
      rcases List.mem_cons.mp hp with h' | h'
      · subst h'
        exact h (j, l) (by simp) z hz
      · exact ih (fun p' hp' => h p' (by simp [hp'])) p h' z hz

theorem recordStep_pres (Q : ScanState → Prop) (doc : Document)
    (subScan : ObjectId → Matrix → ScanState → ScanState)
    (tokens : Array String) (xo gs : List (String × ObjectId))
    (hsub : ∀ id m s, Q s → Q (subScan id m s))
    (hpush : ∀ (s : ScanState) (id : ObjectId) (o : F × F),
      (flt (fv 0) o.1 && flt (fv 0) o.2) = true → Q s →
      Q { s with displayInfo := pushObs s.displayInfo id o })
    (i : ℕ) (stack : List Matrix) (s : ScanState) (hQ : Q s) :
    Q (recordStep doc subScan tokens xo gs i stack s) := by
  unfold recordStep
  split
  · split
    · split
      · split
        · exact hsub _ _ _ hQ
        · exact hQ
      · exact hQ
    · exact hQ
  · split
    · split
      · split
        · split
          · dsimp only
            split
            · rename_i hguard
              exact hpush s _ _ hguard hQ
            · exact hQ
          · exact hsub _ _ _ hQ
          · exact hQ
        · exact hQ
      · exact hQ
    · exact hQ
  · exact hQ

theorem foldl_state_pres {α : Type} (Q : ScanState → Prop)
    (g : ScanState → α → ScanState)
    (hg : ∀ s a, Q s → Q (g s a)) :
    ∀ (l : List α) (s : ScanState), Q s → Q (l.foldl g s) := by
  intro l
  induction l with
  | nil => intro s hs; exact hs
  | cons a rest ih => intro s hs; exact ih _ (hg s a hs)

theorem foldl_tokenStep_pres (Q : ScanState → Prop) (doc : Document)
    (subScan : ObjectId → Matrix → ScanState → ScanState)
    (tokens : Array String) (xo gs : List (String × ObjectId))
    (h : ∀ (i : ℕ) (stack : List Matrix) (s : ScanState), Q s →
      Q (recordStep doc subScan tokens xo gs i stack s)) :
    ∀ (idxs : List ℕ) (stack : List Matrix) (s : ScanState), Q s →
      Q ((idxs.foldl (tokenStep doc subScan tokens xo gs) (stack, s)).2) := by
  intro idxs
  induction idxs with
  | nil => intro stack s hs; exact hs
  | cons i rest ih =>
    intro stack s hs
    rw [List.foldl_cons]
    exact ih _ _ (h i stack s hs)

/-- Any predicate preserved by the three primitive state updates of the
scanner (marking a subgraph visited, flagging fuel exhaustion, pushing
a positively-guarded observation) is preserved by the whole scan. -/
theorem scanGo_preserves (doc : Document)
    (inflate : List ℕ → Option (List ℕ)) (Q : ScanState → Prop)
    (hcons : ∀ (s : ScanState) (id : ObjectId), Q s →
      Q { s with scannedForms := id :: s.scannedForms })
    (hfuel : ∀ s : ScanState, Q s → Q { s with fuelOut := true })
    (hpush : ∀ (s : ScanState) (id : ObjectId) (o : F × F),
      (flt (fv 0) o.1 && flt (fv 0) o.2) = true → Q s →
      Q { s with displayInfo := pushObs s.displayInfo id o }) :
    ∀ (fuel : ℕ) (task : ScanTask) (st : ScanState), Q st →
      Q (scanGo doc inflate fuel task st) := by
  intro fuel
  induction fuel with
  | zero =>
    intro task st hQ
    cases task with
    | sub id m =>
      rw [scanGo]
      split
      · exact hQ
      · split
        · exact hfuel _ (hcons st id hQ)
        · exact hcons st id hQ
    | content c r m =>
      rw [scanGo]
      exact hfuel st hQ
  | succ f ih =>
    intro task st hQ
    cases task with
    | sub id m =>
      rw [scanGo]
      split
      · exact hQ
      · split
        · exact ih _ _ (hcons st id hQ)
        · exact hcons st id hQ
    | content c r m =>
      rw [scanGo]
      unfold runTokens
      refine foldl_tokenStep_pres Q doc _ _ _ _
        (recordStep_pres Q doc _ _ _ _
          (fun id' m' s hs => ih (.sub id' m') s hs) hpush) _ _ _ ?_
      exact foldl_state_pres Q _
        (fun s a hs => ih (.sub a m) s hs) _ st hQ

/-! ## Fuel adequacy: the scan terminates on cyclic documents -/

/-- Number of document objects not yet in the visited-subgraph set. -/
def unvisitedCount (doc : Document) (st : ScanState) : ℕ :=
  ((doc.objects.map Prod.fst).toFinset.filter
    (fun j => j ∉ st.scannedForms)).card

theorem unvisited_antitone (doc : Document) {st s : ScanState}
    (h : st.scannedForms ⊆ s.scannedForms) :
    unvisitedCount doc s ≤ unvisitedCount doc st := by
  apply Finset.card_le_card
  intro j hj
  simp only [Finset.mem_filter] at hj ⊢
  exact ⟨hj.1, fun hc => hj.2 (h hc)⟩

theorem unvisited_insert (doc : Document) (st : ScanState)
    (id : ObjectId) (hdoc : id ∈ doc.objects.map Prod.fst)
    (hnv : id ∉ st.scannedForms) :
    unvisitedCount doc { st with scannedForms := id :: st.scannedForms } =
      unvisitedCount doc st - 1 ∧ 1 ≤ unvisitedCount doc st := by
  have hmemf : id ∈ (doc.objects.map Prod.fst).toFinset.filter
      (fun j => j ∉ st.scannedForms) := by
    simp [List.mem_toFinset, hdoc, hnv]
  constructor
  · unfold unvisitedCount
    have hset : (doc.objects.map Prod.fst).toFinset.filter
        (fun j => j ∉ id :: st.scannedForms) =
        ((doc.objects.map Prod.fst).toFinset.filter
          (fun j => j ∉ st.scannedForms)).erase id := by
      ext j
      simp only [Finset.mem_filter, Finset.mem_erase, List.mem_cons]
      tauto
    rw [show ({ st with scannedForms := id :: st.scannedForms } :
        ScanState).scannedForms = id :: st.scannedForms from rfl]
    rw [hset, Finset.card_erase_of_mem hmemf]
  · unfold unvisitedCount
    exact Finset.card_pos.mpr ⟨id, hmemf⟩

/-- With fuel at least twice the number of unvisited objects (plus one
when entering a content stream), the fuel of the model never runs out:
the source recursion, which has no fuel, terminates on every document,
cyclic form references included. -/
theorem scanGo_fuel_sufficient (doc : Document)
    (inflate : List ℕ → Option (List ℕ)) :
    ∀ fuel : ℕ,
      (∀ (id : ObjectId) (m : Matrix) (st : ScanState),
        2 * unvisitedCount doc st ≤ fuel →
        (scanGo doc inflate fuel (.sub id m) st).fuelOut = st.fuelOut) ∧
      (∀ (c : List ℕ) (r : Obj) (m : Matrix) (st : ScanState),
        2 * unvisitedCount doc st + 1 ≤ fuel →
        (scanGo doc inflate fuel (.content c r m) st).fuelOut =
          st.fuelOut) := by
  intro fuel
  induction fuel with
  | zero =>
    constructor
    · intro id m st hb
      rw [scanGo]
      split
      · rfl
      · rename_i hnv
        split
        · rename_i d c hobj
          exfalso
          have hdoc : id ∈ doc.objects.map Prod.fst :=
            lookupAssoc_mem_keys hobj
          have := (unvisited_insert doc st id hdoc hnv).2
          omega
        · rfl
    · intro c r m st hb
      exact absurd hb (by omega)
  | succ f ih =>
    constructor
    · intro id m st hb
      rw [scanGo]
      split
      · rfl
      · rename_i hnv
        split
        · rename_i d c hobj
          have hdoc : id ∈ doc.objects.map Prod.fst :=
            lookupAssoc_mem_keys hobj
          obtain ⟨heq, hpos⟩ := unvisited_insert doc st id hdoc hnv
          exact ih.2 _ _ _ _ (by omega)
        · rfl
    · intro c r m st hb
      have hb2 : 2 * unvisitedCount doc st ≤ f := by omega
      have hsubQ : ∀ (id' : ObjectId) (m' : Matrix) (s : ScanState),
          (st.scannedForms ⊆ s.scannedForms ∧ s.fuelOut = st.fuelOut) →
          (st.scannedForms ⊆
              (scanGo doc inflate f (.sub id' m') s).scannedForms ∧
            (scanGo doc inflate f (.sub id' m') s).fuelOut =
              st.fuelOut) := by
        intro id' m' s hs
        constructor
        · exact scanGo_preserves doc inflate
            (fun t => st.scannedForms ⊆ t.scannedForms)
            (fun s' id'' h => h.trans (List.subset_cons_self _ _))
            (fun s' h => h) (fun s' id'' o _ h => h)
            f (.sub id' m') s hs.1
        · have hle : 2 * unvisitedCount doc s ≤ f := by
            have := unvisited_antitone doc hs.1
            omega
          rw [ih.1 id' m' s hle, hs.2]
      rw [scanGo]
      unfold runTokens
      refine (foldl_tokenStep_pres
        (fun s => st.scannedForms ⊆ s.scannedForms ∧ s.fuelOut = st.fuelOut)
        doc _ _ _ _
        (recordStep_pres _ doc _ _ _ _ hsubQ
          (fun s id' o _ h => ⟨h.1, h.2⟩)) _ _ _ ?_).2
      exact foldl_state_pres _ _
        (fun s a hs => hsubQ a m s hs) _ st ⟨List.Subset.refl _, rfl⟩

/-! ## Claim C5: the visited-subgraph guard and termination -/

theorem scanGo_sub_marks (doc : Document)
    (inflate : List ℕ → Option (List ℕ)) :
    ∀ (fuel : ℕ) (st : ScanState) (id : ObjectId) (m : Matrix),
      id ∉ st.scannedForms →
      id ∈ (scanGo doc inflate fuel (.sub id m) st).scannedForms := by
  intro fuel st id m h
  cases fuel with
  | zero =>
    rw [scanGo]
    rw [if_neg h]
    split
    · exact List.mem_cons_self _ _
    · exact List.mem_cons_self _ _
  | succ f =>
    rw [scanGo]
    rw [if_neg h]
    split
    · exact scanGo_preserves doc inflate (fun s => id ∈ s.scannedForms)
        (fun s id' hmem => List.mem_cons_of_mem _ hmem)
        (fun s hmem => hmem) (fun s id' o _ hmem => hmem)
        f _ _ (List.mem_cons_self _ _)
    · exact List.mem_cons_self _ _

/-- Claim C5: for every Form XObject or tiling pattern invocation, a
target already in the visited-subgraph set makes the scan return
immediately with the state unchanged; otherwise the target is marked
and ends up in the visited set; the visited set only grows during any
scan; and fuel `2 · |unvisited|` suffices for the model, so one
analysis pass over any document — cyclic form references included —
terminates without entering a subgraph twice. -/
theorem claim_C5 (doc : Document) (inflate : List ℕ → Option (List ℕ)) :
    (∀ (fuel : ℕ) (st : ScanState) (id : ObjectId) (m : Matrix),
      id ∈ st.scannedForms →
      scanFormXObject doc inflate fuel st id m = st ∧
      scanTilingPattern doc inflate fuel st id m = st) ∧
    (∀ (fuel : ℕ) (st : ScanState) (id : ObjectId) (m : Matrix),
      id ∉ st.scannedForms →
      id ∈ (scanFormXObject doc inflate fuel st id m).scannedForms) ∧
    (∀ (fuel : ℕ) (task : ScanTask) (st : ScanState),
      st.scannedForms ⊆ (scanGo doc inflate fuel task st).scannedForms) ∧
    (∀ (fuel : ℕ) (st : ScanState) (id : ObjectId) (m : Matrix),
      2 * unvisitedCount doc st ≤ fuel →
      (scanFormXObject doc inflate fuel st id m).fuelOut = st.fuelOut) := by
  refine ⟨?_, ?_, ?_, ?_⟩
  · intro fuel st id m h
    constructor
    · unfold scanFormXObject
      rw [scanGo, if_pos h]
    · unfold scanTilingPattern
      rw [scanGo, if_pos h]
  · intro fuel st id m h
    exact scanGo_sub_marks doc inflate fuel st id m h
  · intro fuel task st
    exact scanGo_preserves doc inflate
      (fun s => st.scannedForms ⊆ s.scannedForms)
      (fun s id' hs => hs.trans (List.subset_cons_self _ _))
      (fun s hs => hs) (fun s id' o _ hs => hs)
      fuel task st (List.Subset.refl _)
  · intro fuel st id m h
    exact (scanGo_fuel_sufficient doc inflate fuel).1 id m st h

/-- Document with a directly cyclic Form XObject for the C5 witness:
form `(2,0)` invokes itself through its own resources. -/
def doc5 : Document :=
  ⟨[((2, 0), .stream
      [("Subtype", .name "Form"),
       ("Resources", .dictionary
         [("XObject", .dictionary [("F2", .ref (2, 0))])])]
      (strBytes "/F2 Do"))]⟩

/-- Witness for claim C5 on the cyclic document `doc5`. -/
theorem claim_C5_witness :
    ((2, 0) ∈ ([(2, 0)] : List ObjectId) ∧
      scanFormXObject doc5 (fun _ => none) 3 ⟨[], [(2, 0)], false⟩ (2, 0)
        Matrix.identity = ⟨[], [(2, 0)], false⟩) ∧
    ((2, 0) ∉ (([] : List ObjectId)) ∧
      (2, 0) ∈ (scanFormXObject doc5 (fun _ => none) 3 ⟨[], [], false⟩
        (2, 0) Matrix.identity).scannedForms) ∧
    (2 * unvisitedCount doc5 ⟨[], [], false⟩ ≤ 3 ∧
      (scanFormXObject doc5 (fun _ => none) 3 ⟨[], [], false⟩ (2, 0)
        Matrix.identity).fuelOut = false) := by
  refine ⟨⟨by decide, ?_⟩, ⟨by decide, ?_⟩, ⟨by decide, ?_⟩⟩
  · exact ((claim_C5 doc5 (fun _ => none)).1 3 ⟨[], [(2, 0)], false⟩ (2, 0)
      Matrix.identity (by decide)).1
  · exact (claim_C5 doc5 (fun _ => none)).2.1 3 ⟨[], [], false⟩ (2, 0)
      Matrix.identity (by decide)
  · exact (claim_C5 doc5 (fun _ => none)).2.2.2 3 ⟨[], [], false⟩ (2, 0)
      Matrix.identity (by decide)

/-! ## Claim C10: positivity of recorded observations and the
panic-free reducer -/

theorem flt_fv0_cases {w : F} (h : flt (fv 0) w = true) :
    ∃ a, w = some a ∧ 0 < a := by
  cases w with
  | none => simp [flt, fv] at h
  | some a => exact ⟨a, rfl, by simpa [flt, fv] using h⟩

theorem foldl_maxByStep_no_panic :
    ∀ (l : List (F × F)) (acc : (F × F) × Bool),
      (∀ z ∈ l, PosObs z) → PosObs acc.1 → acc.2 = false →
      (l.foldl (maxByStep fpcArea) acc).2 = false := by
  intro l
  induction l with
  | nil => intro acc _ _ hfl; exact hfl
  | cons y rest ih =>
    intro acc hl hacc hfl
    obtain ⟨ay1, hy1, _⟩ := flt_fv0_cases (hl y (by simp)).1
    obtain ⟨ay2, hy2, _⟩ := flt_fv0_cases (hl y (by simp)).2
    obtain ⟨aa1, ha1, _⟩ := flt_fv0_cases hacc.1
    obtain ⟨aa2, ha2, _⟩ := flt_fv0_cases hacc.2
    have hcmp : fpcArea y acc.1 =
        some (qcmp (ay1 * ay2) (aa1 * aa2)) := by
      simp [fpcArea, fmul, hy1, hy2, ha1, ha2, fpartialCmp]
    rw [List.foldl_cons]
    rcases hq : qcmp (ay1 * ay2) (aa1 * aa2) with _ | _ | _
    · rw [show maxByStep fpcArea acc y = acc by
        rcases acc with ⟨a, fl⟩
        simp [maxByStep, hcmp, hq]]
      exact ih acc (fun z hz => hl z (by simp [hz])) hacc hfl
    · rw [show maxByStep fpcArea acc y = (y, acc.2) by
        rcases acc with ⟨a, fl⟩
        simp [maxByStep, hcmp, hq]]
      exact ih (y, acc.2) (fun z hz => hl z (by simp [hz]))
        (hl y (by simp)) hfl
    · rw [show maxByStep fpcArea acc y = (y, acc.2) by
        rcases acc with ⟨a, fl⟩
        simp [maxByStep, hcmp, hq]]
      exact ih (y, acc.2) (fun z hz => hl z (by simp [hz]))
        (hl y (by simp)) hfl

theorem displayMap_fold_no_panic (dims : List (ObjectId × (ℕ × ℕ))) :
    ∀ (entries : List (ObjectId × List (F × F)))
      (accP : List (ObjectId × ImageDisplayInfo) × Bool),
      accP.2 = false → (∀ p ∈ entries, ∀ z ∈ p.2, PosObs z) →
      ((entries.foldl (displayMapStep dims) accP).2) = false := by
  intro entries
  induction entries with
  | nil => intro accP hfl _; exact hfl
  | cons p rest ih =>
    intro accP hfl hent
    rw [List.foldl_cons]
    have hstep : (displayMapStep dims accP p).2 = false := by
      unfold displayMapStep
      split
      · dsimp only
        rw [hfl, Bool.false_or]
        cases hobs : p.2 with
        | nil => simp [reduceMaxBy]
        | cons z zs =>
          simp only [reduceMaxBy]
          exact foldl_maxByStep_no_panic zs (z, false)
            (fun w hw => hent p (by simp) w (by simp [hobs, hw]))
            (hent p (by simp) z (by simp [hobs])) rfl
      · exact hfl
    exact ih _ hstep (fun q hq => hent q (by simp [hq]))

/-- Claim C10: every observation recorded by the scanner is strictly
positive in both components (the `display_w > 0 && display_h > 0` guard
excludes zero, negative and NaN values), so the areas compared by the
reducer always have a defined `partial_cmp` — the `unwrap` in
`get_display_info_map` never panics. -/
theorem claim_C10 (doc : Document) (inflate : List ℕ → Option (List ℕ)) :
    (∀ (fuel : ℕ) (task : ScanTask) (st : ScanState),
      PosInv st → PosInv (scanGo doc inflate fuel task st)) ∧
    (∀ (dims : List (ObjectId × (ℕ × ℕ))) (st : ScanState),
      PosInv st → (getDisplayInfoMap dims st).2 = false) := by
  constructor
  · intro fuel task st h
    exact scanGo_preserves doc inflate PosInv
      (fun s id' hs => hs) (fun s hs => hs)
      (fun s id' o hg hs =>
        pushObs_posInv s.displayInfo id' o hs
          ⟨(Bool.and_eq_true_iff.mp hg).1, (Bool.and_eq_true_iff.mp hg).2⟩)
      fuel task st h
  · intro dims st h
    unfold getDisplayInfoMap
    exact displayMap_fold_no_panic dims st.displayInfo ([], false) rfl h

/-- Witness for claim C10 at a concrete positive-observation state. -/
theorem claim_C10_witness :
    PosInv (⟨[((1, 0), [(fv 2, fv 3)])], [], false⟩ : ScanState) ∧
    PosInv (scanGo ⟨[]⟩ (fun _ => none) 1
      (.content (strBytes "q Q") Obj.null Matrix.identity)
      ⟨[((1, 0), [(fv 2, fv 3)])], [], false⟩) ∧
    (getDisplayInfoMap [((1, 0), (4, 4))]
      ⟨[((1, 0), [(fv 2, fv 3)])], [], false⟩).2 = false := by
  have h1 : PosInv (⟨[((1, 0), [(fv 2, fv 3)])], [], false⟩ : ScanState) := by
    unfold PosInv PosObs
    decide
  exact ⟨h1, (claim_C10 ⟨[]⟩ (fun _ => none)).1 1 _ _ h1,
    (claim_C10 ⟨[]⟩ (fun _ => none)).2 [((1, 0), (4, 4))] _ h1⟩

end PdfResample
